import Mathlib

/-!
Verification of the parasel execution engine (`parasel/core`): the shared
`Context`, the `Node` step variants (`ModuleAdapter`, `Serial`, `Parallel`,
`ByArgs`, `ByKeys`) and the `Executor` driver, shallowly embedded from
`src/parasel/core/{context,node,module_adapter,executor}.py`.

Modelling conventions:
* Python values appearing in contexts are modelled by the inductive `Val`
  (`None`, ints, strings, lists, tuples); Python `==`/`!=` is `Val.beq`.
* A `Context` is its `_data` dict, modelled as an insertion-ordered
  association list (`dict` update-in-place / append-new semantics).  The
  `_accessed_keys` / `_written_keys` sets are diagnostic only (spec §3) and
  are not modelled; `thread_safe` only wraps operations in a lock and does
  not change their sequential result, so it is not modelled either.
* Exceptions are values of `Exc`; `raise` is `Except.error`.  A raising
  Python call that may also have mutated the context is modelled as
  returning the mutated context together with the `Except` outcome.
* The formatted message string of an `ExecutionError` is modelled
  structurally by `ErrMsg` (one constructor per f-string in the source).
* Thread-pool / async concurrency is determinised: `Parallel` is modelled
  by the schedule that completes children in submission (list) order,
  which is one legal schedule of `ThreadPoolExecutor`/`as_completed`.
* `time.sleep` is instrumented: the retry loop returns the list of slept
  durations (`retry_backoff * (attempt+1)`), with durations in `ℚ`.
-/

namespace Parasel

/-- Python values stored in a `Context` or passed as keyword arguments. -/
inductive Val where
  | none : Val
  | int : Int → Val
  | str : String → Val
  | list : List Val → Val
  | tup : List Val → Val
  deriving Repr

mutual

/-- Python structural equality (`==`) on `Val`. -/
def Val.beq : Val → Val → Bool
  | .none, .none => true
  | .int a, .int b => a == b
  | .str a, .str b => a == b
  | .list a, .list b => Val.beqList a b
  | .tup a, .tup b => Val.beqList a b
  | _, _ => false

/-- Elementwise `Val.beq` on lists. -/
def Val.beqList : List Val → List Val → Bool
  | [], [] => true
  | a :: as, b :: bs => Val.beq a b && Val.beqList as bs
  | _, _ => false

end

/-- `Context._data`: an insertion-ordered association list, as a Python dict. -/
abbrev Ctx := List (String × Val)

/-- Dict lookup: `d.get(key)` without default (`None` absent is `Option.none`). -/
def dictGet (d : List (String × Val)) (k : String) : Option Val :=
  match d with
  | [] => Option.none
  | (k', v) :: rest => if k' = k then some v else dictGet rest k

/-- Dict store `d[k] = v`: update in place if present, else append (Python
dict insertion-order semantics). -/
def dictSet (d : List (String × Val)) (k : String) (v : Val) : List (String × Val) :=
  match d with
  | [] => [(k, v)]
  | (k', v') :: rest => if k' = k then (k, v) :: rest else (k', v') :: dictSet rest k v

/-- Python `{**a, **b}` / `a.update(b)`: entries of `b` override or append. -/
def dictUpdate (a b : List (String × Val)) : List (String × Val) :=
  match b with
  | [] => a
  | (k, v) :: rest => dictUpdate (dictSet a k v) rest

/-- `key in d` (Python `__contains__`). -/
def dictContains (d : List (String × Val)) (k : String) : Bool :=
  (dictGet d k).isSome

/-- `Context.get(key)` with Python's default `None`: absent keys read as `None`. -/
def pyGet (c : Ctx) (k : String) : Val :=
  (dictGet c k).getD Val.none

/-- `Context._accumulate_impl` (`context.py` lines 133-142): `current =
self._data.get(key)`; `None` → `[value]`; a list → in-place append;
anything else → `[current, value]`. -/
def ctxAccumulate (c : Ctx) (k : String) (v : Val) : Ctx :=
  match pyGet c k with
  | Val.none => dictSet c k (Val.list [v])
  | Val.list xs => dictSet c k (Val.list (xs ++ [v]))
  | current => dictSet c k (Val.list [current, v])

/-! ## Exceptions -/

/-- The exception *classes* that occur in the engine and in `ExecutionPolicy.retry_on`
(`Exception` is the common base class). -/
inductive ExcType where
  | exception : ExcType
  | executionError : ExcType
  | valueError : ExcType
  | typeError : ExcType
  | runtimeError : ExcType
  deriving DecidableEq, Repr

/-- Structural model of the f-string message carried by each `ExecutionError`
raised in the source (one constructor per raise site). -/
inductive ErrMsg where
  /-- `f"ModuleAdapter '{name}' execution failed: {e}"` -/
  | adapterFailed (adapterName : String) : ErrMsg
  /-- `f"Serial node '{name}' child {i} ('{child.name}') failed: {e}"` -/
  | serialChildFailed (serialName : String) (idx : Nat) (childName : String) : ErrMsg
  /-- `f"Serial node '{name}' completed with {len} error(s)"` -/
  | serialAggregate (serialName : String) (count : Nat) : ErrMsg
  /-- `f"Parallel node '{name}' child '{child.name}' failed: {e}"` -/
  | parallelChildFailed (parallelName : String) (childName : String) : ErrMsg
  /-- `f"Parallel node '{name}' completed with {len} error(s): ..."` -/
  | parallelAggregate (parallelName : String) (count : Nat) : ErrMsg
  /-- `f"ByKeys: key '{key}' not found in context"` -/
  | byKeysKeyNotFound (key : String) : ErrMsg
  /-- `f"ByKeys: key '{key}' must be a list or tuple, got {type}"` -/
  | byKeysKeyNotSeq (key : String) : ErrMsg
  /-- `f"Node '{name}' failed after {n} attempt(s): {e}"` -/
  | failedAfterAttempts (nodeName : String) (attempts : Nat) : ErrMsg
  deriving Repr

/-- Exception values: `ExecutionError(message, node_name, cause)` plus the
plain builtin exceptions a user function may raise. -/
inductive Exc where
  | execError (nodeName : String) (msg : ErrMsg) (cause : Option Exc) : Exc
  | valueError (s : String) : Exc
  | typeError (s : String) : Exc
  | runtimeError (s : String) : Exc
  deriving Repr

/-- Python `isinstance(e, t)` for our exception classes (every `Exc` is an
`Exception`; `ExecutionError`, `ValueError`, ... are sibling subclasses). -/
def Exc.isInstanceOf : Exc → ExcType → Bool
  | _, .exception => true
  | .execError _ _ _, .executionError => true
  | .valueError _, .valueError => true
  | .typeError _, .typeError => true
  | .runtimeError _, .runtimeError => true
  | _, _ => false

/-- `any(isinstance(e, exc_type) for exc_type in retry_on)` (`executor.py` line 188). -/
def excMatches (e : Exc) (retry_on : List ExcType) : Bool :=
  retry_on.any (fun t => e.isInstanceOf t)

/-! ## ModuleAdapter -/

/-- A wrapped user function.  `run` takes the non-context keyword arguments
(the adapter always passes the shared context itself, modelled as the `Ctx`
argument) and returns the possibly-mutated context together with either the
returned value or a raised exception (mutations made before a raise persist).
`wantsOutName` models `"out_name" in inspect.signature(func).parameters`. -/
structure UserFunc where
  wantsOutName : Bool
  run : List (String × Val) → Ctx → Ctx × Except Exc Val

/-- `ModuleAdapter` (sync path; the async path mirrors it line for line).
`accumulate_result` is the `_accumulate_result` flag set by `ByArgs`/`ByKeys`. -/
structure MAdapter where
  func : UserFunc
  out_name : Option String
  name : String
  func_kwargs : List (String × Val)
  retries : Nat
  accumulate_result : Bool

/-- Python truthiness of the optional `out_name` (`None` and `""` are falsy). -/
def optTruthy : Option String → Bool
  | Option.none => false
  | some s => s ≠ ""

/-- The reserved keyword names `ModuleAdapter.__init__` routes to the `Node`
base instead of `func_kwargs`. -/
def reservedNodeKeys : List String := ["timeout", "retries", "metadata"]

/-- `ModuleAdapter.__init__`: split `**kwargs` into node configuration
(`timeout`/`retries`/`metadata`) and `func_kwargs`; `_accumulate_result`
starts `False`. -/
def mkModuleAdapter (func : UserFunc) (out_name : Option String) (name : String)
    (kwargs : List (String × Val)) : MAdapter :=
  let func_kwargs := kwargs.filter (fun kv => ¬ reservedNodeKeys.contains kv.1)
  let retries := match dictGet kwargs "retries" with
    | some (Val.int n) => n.toNat
    | _ => 0
  ⟨func, out_name, name, func_kwargs, retries, false⟩

/-- The keyword arguments built by `_run_sync_impl` before the call
(`module_adapter.py` lines 85-92), minus the context itself:
`out_name` when the function declares it and one is configured, then
`func_kwargs` merged on top. -/
def callKwargs (m : MAdapter) : List (String × Val) :=
  let base : List (String × Val) :=
    if m.func.wantsOutName && optTruthy m.out_name then
      [("out_name", Val.str (m.out_name.getD ""))]
    else []
  dictUpdate base m.func_kwargs

/-- `ModuleAdapter._run_sync_impl` (`module_adapter.py` lines 77-137). -/
def runSyncImpl (m : MAdapter) (ctx : Ctx) : Ctx × Except Exc Unit :=
  let accOn := m.accumulate_result && optTruthy m.out_name
  let o := m.out_name.getD ""
  -- 누적 모드일 때: 함수 실행 전 context 값 저장
  let old_value := if accOn then pyGet ctx o else Val.none
  match m.func.run (callKwargs m) ctx with
  | (ctx1, Except.error e) =>
      -- any exception in the try block → wrapped ExecutionError
      (ctx1, Except.error (Exc.execError m.name (ErrMsg.adapterFailed m.name) (some e)))
  | (ctx1, Except.ok result) =>
      if accOn then
        let new_value := pyGet ctx1 o
        if ¬ Val.beq new_value old_value then
          -- 함수가 context에 직접 쓴 경우
          match old_value with
          | Val.none => (dictSet ctx1 o (Val.list [new_value]), Except.ok ())
          | Val.list xs => (dictSet ctx1 o (Val.list (xs ++ [new_value])), Except.ok ())
          | w => (dictSet ctx1 o (Val.list [w, new_value]), Except.ok ())
        else if ¬ Val.beq result Val.none then
          -- return 값이 있는 경우
          match old_value with
          | Val.none => (dictSet ctx1 o (Val.list [result]), Except.ok ())
          | Val.list xs => (dictSet ctx1 o (Val.list (xs ++ [result])), Except.ok ())
          | w => (dictSet ctx1 o (Val.list [w, result]), Except.ok ())
        else (ctx1, Except.ok ())
      else if ¬ Val.beq result Val.none && optTruthy m.out_name then
        -- 일반 모드: 반환값을 out_name 키로 저장
        (dictSet ctx1 o result, Except.ok ())
      else (ctx1, Except.ok ())

/-! ## The step tree

`PNode` is the closed variant type of executable steps (`node.py`):
`ModuleAdapter` leaves, `Serial(name, continue_on_error, retries, children)`,
`Parallel(name, fail_fast, retries, children)` and
`ByKeys(name, retries, base_node, keys, input_key_name)`.
`ByArgs` is not a `Node` (it is an iterable expanded at construction time,
spliced into a `Parallel`'s child list by `Parallel.__init__`); it is
modelled separately below. -/
inductive PNode where
  | leaf : MAdapter → PNode
  | serial : String → Bool → Nat → List PNode → PNode
  | parallel : String → Bool → Nat → List PNode → PNode
  | byKeys : String → Nat → MAdapter → List String → String → PNode

/-- `node.name`. -/
def PNode.name : PNode → String
  | .leaf m => m.name
  | .serial nm _ _ _ => nm
  | .parallel nm _ _ _ => nm
  | .byKeys nm _ _ _ _ => nm

/-- `node.retries`. -/
def PNode.retries : PNode → Nat
  | .leaf m => m.retries
  | .serial _ _ r _ => r
  | .parallel _ _ r _ => r
  | .byKeys _ r _ _ _ => r

/-- The item-collection loop body of `ByKeys.run`: one level of nesting is
flattened (a list/tuple element contributes its members, anything else
contributes itself). -/
def flattenOne (xs : List Val) : List Val :=
  match xs with
  | [] => []
  | Val.list ys :: rest => ys ++ flattenOne rest
  | Val.tup ys :: rest => ys ++ flattenOne rest
  | item :: rest => item :: flattenOne rest

/-- The key-collection phase of `ByKeys.run` (`node.py` lines 399-420):
keys are checked in configured order; the first absent key raises
"key not found", the first present-but-not-list/tuple key raises
"must be a list or tuple". -/
def byKeysCollect (nodeName : String) (ctx : Ctx) : List String → Except Exc (List Val)
  | [] => Except.ok []
  | k :: ks =>
      if ¬ dictContains ctx k then
        Except.error (Exc.execError nodeName (ErrMsg.byKeysKeyNotFound k) Option.none)
      else
        match pyGet ctx k with
        | Val.list xs =>
            (byKeysCollect nodeName ctx ks).map (fun rest => flattenOne xs ++ rest)
        | Val.tup xs =>
            (byKeysCollect nodeName ctx ks).map (fun rest => flattenOne xs ++ rest)
        | _ => Except.error (Exc.execError nodeName (ErrMsg.byKeysKeyNotSeq k) Option.none)

/-- One `ByKeys.run` clone (`node.py` lines 428-442): the base adapter's
kwargs with `input_key_name` bound to the item, built through
`ModuleAdapter.__init__`, then `_accumulate_result = True`. -/
def byKeysClone (base : MAdapter) (ikn : String) (i : Nat) (item : Val) : MAdapter :=
  let new_kwargs := dictSet base.func_kwargs ikn item
  let m := mkModuleAdapter base.func base.out_name
    (base.name ++ "[" ++ toString i ++ "]") new_kwargs
  { m with accumulate_result := true }

/-- `Parallel.run` in its default fail-fast mode over freshly built
`ModuleAdapter` children (the ad-hoc group created by `ByKeys.run`),
determinised to submission order: the first failing child's error is
wrapped and the group stops. -/
def parallelLeavesFF (pname : String) : List MAdapter → Ctx → Ctx × Except Exc Unit
  | [], ctx => (ctx, Except.ok ())
  | m :: rest, ctx =>
      match runSyncImpl m ctx with
      | (ctx', Except.ok ()) => parallelLeavesFF pname rest ctx'
      | (ctx', Except.error e) =>
          (ctx', Except.error
            (Exc.execError m.name (ErrMsg.parallelChildFailed pname m.name) (some e)))

mutual

/-- `Node.run` for each variant (`node.py`), determinised as documented in
the header.  No variant ever reads its own `retries` field: retry is the
`Executor`'s business alone. -/
def nodeRun : PNode → Ctx → Ctx × Except Exc Unit
  | .leaf m, ctx => runSyncImpl m ctx
  | .serial nm coe _r cs, ctx => serialGo nm coe cs 0 [] ctx
  | .parallel nm ff _r cs, ctx =>
      match cs with
      | [] => (ctx, Except.ok ())
      | _ =>
        if ff then parallelGoFF nm cs ctx
        else
          let (ctx', errs) := parallelGoCollect nm cs ctx
          if errs.isEmpty then (ctx', Except.ok ())
          else (ctx', Except.error
            (Exc.execError nm (ErrMsg.parallelAggregate nm errs.length) Option.none))
  | .byKeys nm _r base keys ikn, ctx =>
      match byKeysCollect nm ctx keys with
      | Except.error e => (ctx, Except.error e)
      | Except.ok items =>
          if items.isEmpty then (ctx, Except.ok ())
          else
            let ms := items.enum.map (fun p => byKeysClone base ikn p.1 p.2)
            parallelLeavesFF (nm ++ "_parallel") ms ctx

/-- The child loop of `Serial.run` (`node.py` lines 97-120), carrying the
child index and the recorded `errors` list.  The final guard
`if errors and not self.continue_on_error` is translated verbatim. -/
def serialGo (nm : String) (coe : Bool) : List PNode → Nat → List Exc → Ctx →
    Ctx × Except Exc Unit
  | [], _i, errs, ctx =>
      if ¬ errs.isEmpty && ¬ coe then
        (ctx, Except.error (Exc.execError nm (ErrMsg.serialAggregate nm errs.length) Option.none))
      else (ctx, Except.ok ())
  | c :: cs, i, errs, ctx =>
      match nodeRun c ctx with
      | (ctx', Except.ok ()) => serialGo nm coe cs (i + 1) errs ctx'
      | (ctx', Except.error e) =>
          let err := Exc.execError c.name (ErrMsg.serialChildFailed nm i c.name) (some e)
          if coe then serialGo nm coe cs (i + 1) (errs ++ [err]) ctx'
          else (ctx', Except.error err)

/-- `Parallel.run` with `fail_fast=True` (`node.py` lines 196-212),
determinised to submission order. -/
def parallelGoFF (pname : String) : List PNode → Ctx → Ctx × Except Exc Unit
  | [], ctx => (ctx, Except.ok ())
  | c :: cs, ctx =>
      match nodeRun c ctx with
      | (ctx', Except.ok ()) => parallelGoFF pname cs ctx'
      | (ctx', Except.error e) =>
          (ctx', Except.error
            (Exc.execError c.name (ErrMsg.parallelChildFailed pname c.name) (some e)))

/-- `Parallel.run` with `fail_fast=False` (`node.py` lines 213-228): every
child runs to completion and the wrapped errors are collected in order. -/
def parallelGoCollect (pname : String) : List PNode → Ctx → Ctx × List Exc
  | [], ctx => (ctx, [])
  | c :: cs, ctx =>
      match nodeRun c ctx with
      | (ctx', Except.ok ()) => parallelGoCollect pname cs ctx'
      | (ctx', Except.error e) =>
          let (ctx'', errs) := parallelGoCollect pname cs ctx'
          (ctx'', Exc.execError c.name (ErrMsg.parallelChildFailed pname c.name) (some e) :: errs)

end

/-! ## ByArgs (static fan-out) -/

/-- `ByArgs(base_node, args)`: a template adapter plus an insertion-ordered
mapping from parameter name to candidate values. -/
structure ByArgs where
  base_node : MAdapter
  args : List (String × List Val)

/-- `itertools.product(*param_values)`: nested-loop enumeration, first list
outermost, last list innermost (fastest). -/
def pyProduct : List (List Val) → List (List Val)
  | [] => [[]]
  | l :: ls => (l.map (fun x => (pyProduct ls).map (fun rest => x :: rest))).flatten

/-- The loop body of `ByArgs.__iter__` (`node.py` lines 326-344) for one
combination: merge `func_kwargs` with the combination, rebuild through
`ModuleAdapter.__init__`, set `_accumulate_result`. -/
def byArgsClone (b : ByArgs) (combo : List Val) : MAdapter :=
  let param_names := b.args.map Prod.fst
  let new_kwargs := List.zip param_names combo
  let merged_kwargs := dictUpdate b.base_node.func_kwargs new_kwargs
  let nameTag := String.intercalate ","
    (new_kwargs.map (fun kv => kv.1 ++ "=" ++ reprStr kv.2))
  let m := mkModuleAdapter b.base_node.func b.base_node.out_name
    (b.base_node.name ++ "[" ++ nameTag ++ "]") merged_kwargs
  { m with accumulate_result := true }

/-- `ByArgs.__iter__` (`node.py` lines 311-344): one clone per element of
the cartesian product of the value lists. -/
def byArgsIter (b : ByArgs) : List MAdapter :=
  (pyProduct (b.args.map Prod.snd)).map (byArgsClone b)

/-! ## Executor -/

/-- `ErrorMode`. -/
inductive ErrorMode where
  | failFast : ErrorMode
  | collect : ErrorMode
  deriving DecidableEq, Repr

/-- `ExecutionPolicy` (`executor.py` lines 19-31).  `timeout` and
`parallel_max_workers` are never read by the executor and the hook fields
default to `None`; only the fields the retry loop reads are modelled. -/
structure ExecutionPolicy where
  retry_on : List ExcType
  retry_backoff : ℚ
  error_mode : ErrorMode

/-- The dataclass defaults: `retry_on=[Exception]`, `retry_backoff=1.0`,
`error_mode=FAIL_FAST`. -/
def defaultPolicy : ExecutionPolicy :=
  ⟨[ExcType.exception], 1, ErrorMode.failFast⟩

/-- The terminal raise of the retry loop: an `ExecutionError` is re-raised
as is, anything else is wrapped with the attempt count. -/
def wrapRetryErr (node : PNode) (attempts : Nat) (e : Exc) : Exc :=
  match e with
  | Exc.execError a b c => Exc.execError a b c
  | e => Exc.execError node.name (ErrMsg.failedAfterAttempts node.name attempts) (some e)

/-- The `for attempt in range(retries+1)` loop of `Executor._run_with_retry`
(`executor.py` lines 159-202), at loop counter `attempt` with `remaining`
further iterations available (`attempt + remaining = retries`).  Returns the
final context, the list of `time.sleep` durations, and the outcome.  The
hooks are `None` under the modelled policy; the post-loop `if last_error`
block is unreachable (every loop iteration returns or raises) and is
therefore not modelled. -/
def runWithRetryAux (pol : ExecutionPolicy) (node : PNode) :
    Nat → Nat → Ctx → Ctx × List ℚ × Except Exc Unit
  | attempt, 0, ctx =>
      -- last iteration: `attempt < retries` is false, a failure is raised
      match nodeRun node ctx with
      | (ctx', Except.ok ()) => (ctx', [], Except.ok ())
      | (ctx', Except.error e) =>
          (ctx', [], Except.error (wrapRetryErr node (attempt + 1) e))
  | attempt, r + 1, ctx =>
      match nodeRun node ctx with
      | (ctx', Except.ok ()) => (ctx', [], Except.ok ())
      | (ctx', Except.error e) =>
          if excMatches e pol.retry_on then
            let rest := runWithRetryAux pol node (attempt + 1) r ctx'
            (rest.1, pol.retry_backoff * (attempt + 1) :: rest.2.1, rest.2.2)
          else (ctx', [], Except.error (wrapRetryErr node (attempt + 1) e))

/-- `Executor._run_with_retry` (`executor.py` lines 154-213): the loop runs
`node.retries + 1` times at most, starting at attempt 0.  Note it is applied
once, to the node handed to the executor — `Serial`/`Parallel`/`ByKeys`
run their children directly, never through this function. -/
def runWithRetry (pol : ExecutionPolicy) (node : PNode) (ctx : Ctx) :
    Ctx × List ℚ × Except Exc Unit :=
  runWithRetryAux pol node 0 node.retries ctx

/-- `ExecutionResult` (`executor.py` lines 34-49).  `duration` is replaced
by the instrumented list of retry-backoff sleeps; `node_timings` is always
empty in the source and not modelled. -/
structure ExecutionResult where
  context : Ctx
  success : Bool
  errors : List Exc
  sleeps : List ℚ
  deriving Repr

/-- `Executor.run` (`executor.py` lines 66-108) on an existing context:
the single `_run_with_retry` call in a `try`, the caught error appended to
`errors`, the early return under `FAIL_FAST` and the fall-through return
computing `success = (len(errors) == 0)`. -/
def executorRun (pol : ExecutionPolicy) (node : PNode) (ctx : Ctx) : ExecutionResult :=
  match runWithRetry pol node ctx with
  | (ctx', sleeps, Except.ok ()) => ⟨ctx', true, [], sleeps⟩
  | (ctx', sleeps, Except.error e) =>
      let errors := [e]
      if pol.error_mode = ErrorMode.failFast then ⟨ctx', false, errors, sleeps⟩
      else ⟨ctx', errors.isEmpty, errors, sleeps⟩

/-! ## Dict lemmas -/

theorem dictGet_dictSet_self (d : List (String × Val)) (k : String) (v : Val) :
    dictGet (dictSet d k v) k = some v := by
  induction d with
  | nil => simp [dictGet, dictSet]
  | cons kv rest ih =>
      obtain ⟨k', v'⟩ := kv
      by_cases h : k' = k <;> simp [dictGet, dictSet, h, ih]

theorem dictGet_dictSet_ne (d : List (String × Val)) (k q : String) (v : Val)
    (h : q ≠ k) : dictGet (dictSet d k v) q = dictGet d q := by
  induction d with
  | nil => simp [dictGet, dictSet, Ne.symm h]
  | cons kv rest ih =>
      obtain ⟨k', v'⟩ := kv
      by_cases h1 : k' = k
      · subst h1
        simp [dictGet, dictSet, Ne.symm h]
      · simp [dictGet, dictSet, h1, ih]

theorem dictGet_eq_none_of_not_mem (d : List (String × Val)) (q : String)
    (h : q ∉ d.map Prod.fst) : dictGet d q = Option.none := by
  induction d with
  | nil => rfl
  | cons kv rest ih =>
      obtain ⟨k, v⟩ := kv
      have hk : ¬ k = q := fun hh => h (by simp [hh])
      have hr : q ∉ rest.map Prod.fst := fun hh => h (by simp [hh])
      simp [dictGet, hk, ih hr]

/-- Lookup in a Python dict merge `{**a, **b}` when `q` is absent from `b`. -/
theorem dictGet_dictUpdate_of_none (a b : List (String × Val)) (q : String)
    (h : dictGet b q = Option.none) : dictGet (dictUpdate a b) q = dictGet a q := by
  induction b generalizing a with
  | nil => rfl
  | cons kv rest ih =>
      obtain ⟨k, v⟩ := kv
      by_cases hk : k = q
      · simp [dictGet, hk] at h
      · simp [dictGet, hk] at h
        rw [dictUpdate, ih (dictSet a k v) h, dictGet_dictSet_ne a k q v (Ne.symm hk)]

/-- Lookup in a Python dict merge `{**a, **b}` when `b` (a dict: keys
unique) binds `q`: the `b` entry wins. -/
theorem dictGet_dictUpdate_of_some (a b : List (String × Val)) (q : String) (w : Val)
    (hnd : (b.map Prod.fst).Nodup) (h : dictGet b q = some w) :
    dictGet (dictUpdate a b) q = some w := by
  induction b generalizing a with
  | nil => simp [dictGet] at h
  | cons kv rest ih =>
      obtain ⟨k, v⟩ := kv
      rw [List.map_cons, List.nodup_cons] at hnd
      by_cases hk : k = q
      · subst hk
        simp [dictGet] at h
        have hrest : dictGet rest k = Option.none :=
          dictGet_eq_none_of_not_mem rest k hnd.1
        rw [dictUpdate, dictGet_dictUpdate_of_none (dictSet a k v) rest k hrest,
          dictGet_dictSet_self, h]
      · simp [dictGet, hk] at h
        rw [dictUpdate]
        exact ih (dictSet a k v) hnd.2 h

/-- Every key of `dictSet d k v` is a key of `d` or `k` itself. -/
theorem fst_mem_dictSet (d : List (String × Val)) (k : String) (v : Val) :
    ∀ kv ∈ dictSet d k v, kv.1 = k ∨ kv.1 ∈ d.map Prod.fst := by
  induction d with
  | nil =>
      intro kv hkv
      simp only [dictSet, List.mem_singleton] at hkv
      left; rw [hkv]
  | cons kv' rest ih =>
      obtain ⟨k', v'⟩ := kv'
      intro kv hkv
      by_cases h : k' = k
      · simp only [dictSet, if_pos h] at hkv
        rcases List.mem_cons.mp hkv with h1 | h1
        · left; rw [h1]
        · right
          rw [List.map_cons]
          exact List.mem_cons_of_mem _ (List.mem_map_of_mem Prod.fst h1)
      · simp only [dictSet, if_neg h] at hkv
        rcases List.mem_cons.mp hkv with h1 | h1
        · right
          rw [List.map_cons, h1]
          exact List.mem_cons_self _ _
        · rcases ih kv h1 with h2 | h2
          · left; exact h2
          · right
            rw [List.map_cons]
            exact List.mem_cons_of_mem _ h2

/-- Every key of `dictUpdate a b` is a key of `a` or of `b`. -/
theorem fst_mem_dictUpdate (a b : List (String × Val)) :
    ∀ kv ∈ dictUpdate a b, kv.1 ∈ a.map Prod.fst ∨ kv.1 ∈ b.map Prod.fst := by
  induction b generalizing a with
  | nil => intro kv h; left; exact List.mem_map_of_mem Prod.fst h
  | cons kv' rest ih =>
      obtain ⟨k, v⟩ := kv'
      intro kv hkv
      rcases ih (dictSet a k v) kv hkv with h | h
      · rw [List.mem_map] at h
        obtain ⟨x, hx, hfst⟩ := h
        rcases fst_mem_dictSet a k v x hx with h1 | h1
        · right; simp [← hfst, h1]
        · left; rw [← hfst]; exact h1
      · right; simp [h]

/-! ## Concrete user functions used by witnesses and counterexamples -/

/-- A function that touches nothing and returns `None`. -/
def noopFunc : UserFunc := ⟨false, fun _kw ctx => (ctx, Except.ok Val.none)⟩

/-- A function that writes `v` directly to key `k` and returns `None`. -/
def writeFunc (k : String) (v : Val) : UserFunc :=
  ⟨false, fun _kw ctx => (dictSet ctx k v, Except.ok Val.none)⟩

/-- A function that raises `ValueError(msg)`. -/
def raiseFunc (msg : String) : UserFunc :=
  ⟨false, fun _kw ctx => (ctx, Except.error (Exc.valueError msg))⟩

/-- A function that returns `v`. -/
def returnFunc (v : Val) : UserFunc := ⟨false, fun _kw ctx => (ctx, Except.ok v)⟩

/-- A function that increments the counter key `"n"` and raises
`ValueError("boom")` exactly when the counter was `0`: it fails on its
first invocation and succeeds on every later one. -/
def countUpFailOnceFunc : UserFunc :=
  ⟨false, fun _kw ctx =>
    let n : Int := match pyGet ctx "n" with | Val.int m => m | _ => 0
    let ctx' := dictSet ctx "n" (Val.int (n + 1))
    if n = 0 then (ctx', Except.error (Exc.valueError "boom"))
    else (ctx', Except.ok (Val.int n))⟩

/-- A bare `ModuleAdapter` with no output key and no extra kwargs. -/
def plainLeaf (f : UserFunc) (nm : String) (r : Nat) : MAdapter :=
  ⟨f, Option.none, nm, [], r, false⟩

/-! ## C3 — Context.accumulate -/

/-- C3 counterexample: on a key that is *present* and holds the scalar
`None`, `accumulate("k", 7)` leaves `[7]`, not the two-element list
`[None, 7]` the claim requires for an existing scalar value
(`_accumulate_impl` tests `current is None`, which conflates a stored
`None` with an absent key). -/
theorem C3_counterexample :
    ctxAccumulate [("k", Val.none)] "k" (Val.int 7) = [("k", Val.list [Val.int 7])] ∧
    Val.list [Val.int 7] ≠ Val.list [Val.none, Val.int 7] :=
  ⟨rfl, by simp⟩

/-- C3 amended: `accumulate(key, value)` turns an absent key *or a key
holding `None`* into `[value]`; appends to a key holding a list; and turns
a key holding any other value (tuples included) into `[old, value]`. -/
theorem C3_accumulate_spec (c : Ctx) (k : String) (v : Val) :
    ((dictGet c k = Option.none ∨ dictGet c k = some Val.none) →
      dictGet (ctxAccumulate c k v) k = some (Val.list [v])) ∧
    (∀ xs, dictGet c k = some (Val.list xs) →
      dictGet (ctxAccumulate c k v) k = some (Val.list (xs ++ [v]))) ∧
    (∀ w, dictGet c k = some w → w ≠ Val.none → (∀ xs, w ≠ Val.list xs) →
      dictGet (ctxAccumulate c k v) k = some (Val.list [w, v])) := by
  refine ⟨?_, ?_, ?_⟩
  · rintro (h | h) <;> simp [ctxAccumulate, pyGet, h, dictGet_dictSet_self]
  · intro xs h
    simp [ctxAccumulate, pyGet, h, dictGet_dictSet_self]
  · intro w h hn hl
    cases w with
    | none => exact absurd rfl hn
    | list xs => exact absurd rfl (hl xs)
    | int n => simp [ctxAccumulate, pyGet, h, dictGet_dictSet_self]
    | str s => simp [ctxAccumulate, pyGet, h, dictGet_dictSet_self]
    | tup xs => simp [ctxAccumulate, pyGet, h, dictGet_dictSet_self]

/-- C3 amended, witness: appending to an existing one-element list. -/
theorem C3_accumulate_spec_witness :
    dictGet (ctxAccumulate [("k", Val.list [Val.int 1])] "k" (Val.int 2)) "k"
      = some (Val.list [Val.int 1, Val.int 2]) :=
  (C3_accumulate_spec [("k", Val.list [Val.int 1])] "k" (Val.int 2)).2.1 [Val.int 1] rfl

/-! ## C10 — empty Parallel group -/

/-- C10: running a `Parallel` node with no children succeeds and leaves the
context exactly as it was, whatever the `fail_fast` flag and retry count
(`Parallel.run` returns immediately when `self.children` is empty). -/
theorem C10_parallel_empty (nm : String) (ff : Bool) (r : Nat) (ctx : Ctx) :
    nodeRun (PNode.parallel nm ff r []) ctx = (ctx, Except.ok ()) := rfl

/-! ## C8 — ByKeys over empty sequences -/

/-- C8: when every configured key holds a list or tuple whose one-level
flattening contributes no items, `ByKeys.run` succeeds and returns the
context unchanged — no clone is built, no key (the output key included)
is touched. -/
theorem C8_byKeys_empty (nm : String) (r : Nat) (base : MAdapter)
    (keys : List String) (ikn : String) (ctx : Ctx)
    (h : ∀ k ∈ keys, ∃ xs,
      (dictGet ctx k = some (Val.list xs) ∨ dictGet ctx k = some (Val.tup xs)) ∧
      flattenOne xs = []) :
    nodeRun (PNode.byKeys nm r base keys ikn) ctx = (ctx, Except.ok ()) := by
  have hc : byKeysCollect nm ctx keys = Except.ok [] := by
    induction keys with
    | nil => rfl
    | cons k ks ih =>
        obtain ⟨xs, hget, hflat⟩ := h k (by simp)
        have hrest : byKeysCollect nm ctx ks = Except.ok [] :=
          ih (fun j hj => h j (by simp [hj]))
        rcases hget with hget | hget <;>
          simp [byKeysCollect, dictContains, pyGet, hget, hflat, hrest, Except.map]
  simp [nodeRun, hc]

/-- C8 witness: a single key holding the empty list. -/
theorem C8_byKeys_empty_witness :
    nodeRun (PNode.byKeys "bk" 0 (plainLeaf noopFunc "t" 0) ["a"] "input")
        [("a", Val.list [])]
      = ([("a", Val.list [])], Except.ok ()) :=
  C8_byKeys_empty "bk" 0 (plainLeaf noopFunc "t" 0) ["a"] "input"
    [("a", Val.list [])]
    (by
      intro k hk
      simp at hk
      subst hk
      exact ⟨[], Or.inl rfl, rfl⟩)

/-! ## C2 — Serial continue-on-error aggregate (code bug) -/

/-- C2, evaluating the code at the failing input: a `Serial` with
`continue_on_error=True` whose first child fails and whose second child
writes `b=1` runs the second child (its write lands) but then returns
*success* — no aggregate `ExecutionError` is ever raised, because the
final guard in `Serial.run` is `if errors and not self.continue_on_error`,
and `errors` can only be non-empty when `continue_on_error` is true.  The
claim (and the raise statement this guard protects) requires the aggregate
failure to surface. -/
theorem C2_code_eval :
    nodeRun (PNode.serial "s" true 0
        [PNode.leaf (plainLeaf (raiseFunc "bad") "f" 0),
         PNode.leaf (plainLeaf (writeFunc "b" (Val.int 1)) "g" 0)]) []
      = ([("b", Val.int 1)], Except.ok ()) := rfl

/-! ## C7 — ByKeys failure conditions -/

theorem byKeysCollect_append_error (nm : String) (ctx : Ctx) (pre rest : List String)
    (hpre : ∀ j ∈ pre, ∃ xs,
      dictGet ctx j = some (Val.list xs) ∨ dictGet ctx j = some (Val.tup xs))
    (e : Exc) (h : byKeysCollect nm ctx rest = Except.error e) :
    byKeysCollect nm ctx (pre ++ rest) = Except.error e := by
  induction pre with
  | nil => simpa using h
  | cons j pre' ih =>
      obtain ⟨xs, hj⟩ := hpre j (by simp)
      have hih := ih (fun j' hj' => hpre j' (by simp [hj']))
      rcases hj with hj | hj <;>
        simp [byKeysCollect, dictContains, pyGet, hj, hih, Except.map]

/-- C7 counterexample: with `keys=["a","b"]`, `a` holding the scalar `5` and
`b` absent, the run fails with the *wrong-shape* condition for `a`, not the
"key not found" condition the claim requires whenever some configured key
is absent — keys are checked in configured order and the first violation
wins.  (The context is returned unmutated either way.) -/
theorem C7_counterexample :
    nodeRun (PNode.byKeys "bk" 0 (plainLeaf noopFunc "t" 0) ["a", "b"] "input")
        [("a", Val.int 5)]
      = ([("a", Val.int 5)],
         Except.error (Exc.execError "bk" (ErrMsg.byKeysKeyNotSeq "a") Option.none)) ∧
    dictContains [("a", Val.int 5)] "b" = false ∧
    ErrMsg.byKeysKeyNotSeq "a" ≠ ErrMsg.byKeysKeyNotFound "b" :=
  ⟨rfl, rfl, by simp⟩

/-- C7 amended: the failure condition of `ByKeys.run` is decided by the
first (in configured order) violating key — "key not found" when it is
absent, "must be a list or tuple" when it is present with a non-sequence
value — and in both cases the context's data mapping is returned without
any mutation. -/
theorem C7_first_violation (nm : String) (r : Nat) (base : MAdapter)
    (keys : List String) (ikn : String) (ctx : Ctx) :
    (∀ pre k post, keys = pre ++ k :: post →
      (∀ j ∈ pre, ∃ xs,
        dictGet ctx j = some (Val.list xs) ∨ dictGet ctx j = some (Val.tup xs)) →
      dictContains ctx k = false →
      nodeRun (PNode.byKeys nm r base keys ikn) ctx
        = (ctx, Except.error (Exc.execError nm (ErrMsg.byKeysKeyNotFound k) Option.none))) ∧
    (∀ pre k post w, keys = pre ++ k :: post →
      (∀ j ∈ pre, ∃ xs,
        dictGet ctx j = some (Val.list xs) ∨ dictGet ctx j = some (Val.tup xs)) →
      dictGet ctx k = some w →
      (∀ xs, w ≠ Val.list xs) → (∀ xs, w ≠ Val.tup xs) →
      nodeRun (PNode.byKeys nm r base keys ikn) ctx
        = (ctx, Except.error (Exc.execError nm (ErrMsg.byKeysKeyNotSeq k) Option.none))) := by
  constructor
  · intro pre k post hkeys hpre hk
    have hhead : byKeysCollect nm ctx (k :: post)
        = Except.error (Exc.execError nm (ErrMsg.byKeysKeyNotFound k) Option.none) := by
      simp [byKeysCollect, hk]
    have hc := byKeysCollect_append_error nm ctx pre (k :: post) hpre _ hhead
    rw [← hkeys] at hc
    simp [nodeRun, hc]
  · intro pre k post w hkeys hpre hk hnl hnt
    have hcont : dictContains ctx k = true := by simp [dictContains, hk]
    have hhead : byKeysCollect nm ctx (k :: post)
        = Except.error (Exc.execError nm (ErrMsg.byKeysKeyNotSeq k) Option.none) := by
      cases w with
      | list xs => exact absurd rfl (hnl xs)
      | tup xs => exact absurd rfl (hnt xs)
      | none => simp [byKeysCollect, hcont, pyGet, hk]
      | int n => simp [byKeysCollect, hcont, pyGet, hk]
      | str s => simp [byKeysCollect, hcont, pyGet, hk]
    have hc := byKeysCollect_append_error nm ctx pre (k :: post) hpre _ hhead
    rw [← hkeys] at hc
    simp [nodeRun, hc]

/-- C7 witness: a missing single key takes the "key not found" branch, a
single key holding a scalar takes the wrong-shape branch, with no mutation. -/
theorem C7_first_violation_witness :
    nodeRun (PNode.byKeys "bk" 0 (plainLeaf noopFunc "t" 0) ["k"] "input") []
      = ([], Except.error (Exc.execError "bk" (ErrMsg.byKeysKeyNotFound "k") Option.none)) ∧
    nodeRun (PNode.byKeys "bk" 0 (plainLeaf noopFunc "t" 0) ["k"] "input")
        [("k", Val.int 3)]
      = ([("k", Val.int 3)],
         Except.error (Exc.execError "bk" (ErrMsg.byKeysKeyNotSeq "k") Option.none)) :=
  ⟨(C7_first_violation "bk" 0 (plainLeaf noopFunc "t" 0) ["k"] "input" []).1
      [] "k" [] rfl (by simp) rfl,
   (C7_first_violation "bk" 0 (plainLeaf noopFunc "t" 0) ["k"] "input"
      [("k", Val.int 3)]).2
      [] "k" [] (Val.int 3) rfl (by simp) rfl
      (fun xs h => Val.noConfusion h) (fun xs h => Val.noConfusion h)⟩

/-! ## C9 — plain-mode output write -/

/-- C9: with accumulate-mode off and a configured output key, a non-`None`
return value of the wrapped function is written verbatim to the output key
(overwriting whatever was there), and the adapter itself touches no other
key: everything else is exactly the context as the function left it. -/
theorem C9_plain_write (m : MAdapter) (ctx ctx1 : Ctx) (o : String) (v : Val)
    (hacc : m.accumulate_result = false)
    (ho : m.out_name = some o) (hne : o ≠ "")
    (hrun : m.func.run (callKwargs m) ctx = (ctx1, Except.ok v))
    (hv : v ≠ Val.none) :
    runSyncImpl m ctx = (dictSet ctx1 o v, Except.ok ()) ∧
    dictGet (dictSet ctx1 o v) o = some v ∧
    (∀ k, k ≠ o → dictGet (dictSet ctx1 o v) k = dictGet ctx1 k) := by
  have hbeq : Val.beq v Val.none = false := by
    cases v <;> first | rfl | exact absurd rfl hv
  refine ⟨?_, dictGet_dictSet_self ctx1 o v,
    fun k hk => dictGet_dictSet_ne ctx1 o k v hk⟩
  simp [runSyncImpl, hacc, ho, hrun, hbeq, optTruthy, hne]

/-- C9 witness: a function returning `3` with output key `"out"` writes
`out=3` over an existing value. -/
theorem C9_plain_write_witness :
    runSyncImpl ⟨returnFunc (Val.int 3), some "out", "w", [], 0, false⟩
        [("out", Val.int 0)]
      = ([("out", Val.int 3)], Except.ok ()) :=
  (C9_plain_write ⟨returnFunc (Val.int 3), some "out", "w", [], 0, false⟩
    [("out", Val.int 0)] [("out", Val.int 0)] "out" (Val.int 3)
    rfl rfl (by decide) rfl (fun h => Val.noConfusion h)).1

/-! ## C4 — the Executor returns a result and never raises -/

/-- C4: `Executor.run` is a total function into `ExecutionResult` — every
failure of the (retry-wrapped) root invocation is caught and recorded.  On
failure the result carries `success=false` together with the whole error
list (here the single wrapped root error), under either error mode; on
success it carries `success=true` and no errors. -/
theorem C4_executor_result (pol : ExecutionPolicy) (node : PNode) (ctx ctx' : Ctx)
    (ss : List ℚ) :
    (∀ e, runWithRetry pol node ctx = (ctx', ss, Except.error e) →
      executorRun pol node ctx = ⟨ctx', false, [e], ss⟩) ∧
    (runWithRetry pol node ctx = (ctx', ss, Except.ok ()) →
      executorRun pol node ctx = ⟨ctx', true, [], ss⟩) := by
  constructor
  · intro e h
    by_cases hm : pol.error_mode = ErrorMode.failFast <;>
      simp [executorRun, h, hm]
  · intro h
    simp [executorRun, h]

/-- C4 witness: a leaf whose function raises produces `success=false` with
the wrapped error as the full error list. -/
theorem C4_executor_result_witness :
    executorRun defaultPolicy (PNode.leaf (plainLeaf (raiseFunc "bad") "f" 0)) []
      = ⟨[], false,
         [Exc.execError "f" (ErrMsg.adapterFailed "f") (some (Exc.valueError "bad"))],
         []⟩ :=
  (C4_executor_result defaultPolicy (PNode.leaf (plainLeaf (raiseFunc "bad") "f" 0))
    [] [] []).1
    (Exc.execError "f" (ErrMsg.adapterFailed "f") (some (Exc.valueError "bad"))) rfl

/-! ## C5 — what the retry check actually matches -/

/-- Matching an `ExecutionError` against a retryable set only asks whether
the set contains `Exception` or `ExecutionError` — the wrapped cause is
never consulted. -/
theorem excMatches_execError_iff (a : String) (b : ErrMsg) (c : Option Exc)
    (S : List ExcType) :
    excMatches (Exc.execError a b c) S = true ↔
      ExcType.exception ∈ S ∨ ExcType.executionError ∈ S := by
  induction S with
  | nil => simp [excMatches]
  | cons t S ih =>
      cases t <;> simp [excMatches, Exc.isInstanceOf] at ih ⊢ <;> tauto

/-- If the wrapped function returns normally, `_run_sync_impl` returns
normally, whatever the post-processing branches do. -/
theorem runSyncImpl_ok_of_func_ok (m : MAdapter) (ctx c1 : Ctx) (result : Val)
    (hf : m.func.run (callKwargs m) ctx = (c1, Except.ok result)) :
    ∃ c2, runSyncImpl m ctx = (c2, Except.ok ()) := by
  simp only [runSyncImpl, hf]
  split
  · split
    · split <;> exact ⟨_, rfl⟩
    · split
      · split <;> exact ⟨_, rfl⟩
      · exact ⟨_, rfl⟩
  · split
    · exact ⟨_, rfl⟩
    · exact ⟨_, rfl⟩

/-- Every failure of `_run_sync_impl` is the structured `ExecutionError`
wrapper around the user function's own exception. -/
theorem runSyncImpl_error_shape (m : MAdapter) (ctx ctx' : Ctx) (e : Exc)
    (h : runSyncImpl m ctx = (ctx', Except.error e)) :
    ∃ c, m.func.run (callKwargs m) ctx = (ctx', Except.error c) ∧
      e = Exc.execError m.name (ErrMsg.adapterFailed m.name) (some c) := by
  rcases hf : m.func.run (callKwargs m) ctx with ⟨c1, r1⟩
  cases r1 with
  | ok result =>
      obtain ⟨c2, hok⟩ := runSyncImpl_ok_of_func_ok m ctx c1 result hf
      rw [hok] at h
      simp at h
  | error ee =>
      have hh : runSyncImpl m ctx
          = (c1, Except.error
              (Exc.execError m.name (ErrMsg.adapterFailed m.name) (some ee))) := by
        simp [runSyncImpl, hf]
      rw [hh] at h
      injection h with h1 h2
      injection h2 with h3
      subst h1
      exact ⟨ee, rfl, h3.symm⟩

/-- One iteration of the retry loop on a failing invocation: the decision
is taken on the exception `node.run` raised. -/
theorem runWithRetryAux_step (pol : ExecutionPolicy) (n : PNode) (a r : Nat)
    (ctx ctx' : Ctx) (e : Exc) (h : nodeRun n ctx = (ctx', Except.error e)) :
    (excMatches e pol.retry_on = false →
      runWithRetryAux pol n a (r + 1) ctx
        = (ctx', [], Except.error (wrapRetryErr n (a + 1) e))) ∧
    (excMatches e pol.retry_on = true →
      ∃ ctx2 ss res, runWithRetryAux pol n (a + 1) r ctx' = (ctx2, ss, res) ∧
        runWithRetryAux pol n a (r + 1) ctx
          = (ctx2, pol.retry_backoff * (a + 1) :: ss, res)) := by
  constructor
  · intro hm
    simp [runWithRetryAux, h, hm]
  · intro hm
    rcases hrec : runWithRetryAux pol n (a + 1) r ctx' with ⟨ctx2, sr⟩
    rcases sr with ⟨ss, res⟩
    exact ⟨ctx2, ss, res, rfl, by simp [runWithRetryAux, h, hm, hrec]⟩

/-- C5 counterexample input: a leaf failing (on its first invocation only)
with cause `ValueError`, three retries configured. -/
def retryCauseLeaf : MAdapter := plainLeaf countUpFailOnceFunc "child" 3

/-- C5 counterexample policy: the retryable set is exactly `[ValueError]`. -/
def causePolicy : ExecutionPolicy := ⟨[ExcType.valueError], 1, ErrorMode.failFast⟩

/-- C5 counterexample: the leaf's cause (`ValueError("boom")`) is in
`retry_on`, three retry attempts remain, and a second invocation would
succeed — yet no retry happens (counter stays at 1, no backoff sleep,
error returned): `isinstance` is tested against the `ExecutionError`
wrapper raised by the adapter, not against the underlying cause. -/
theorem C5_counterexample :
    runWithRetry causePolicy (PNode.leaf retryCauseLeaf) [("n", Val.int 0)]
      = ([("n", Val.int 1)], [],
         Except.error (Exc.execError "child" (ErrMsg.adapterFailed "child")
           (some (Exc.valueError "boom")))) ∧
    excMatches (Exc.valueError "boom") causePolicy.retry_on = true ∧
    retryCauseLeaf.retries = 3 ∧
    (nodeRun (PNode.leaf retryCauseLeaf) [("n", Val.int 1)]).2 = Except.ok () :=
  ⟨rfl, rfl, rfl, rfl⟩

/-- C5 amended: with remaining attempts, a retry happens if and only if the
exception *raised by `node.run`* matches `retry_on`; for a leaf that raised
exception is always the `ExecutionError` wrapper, so the decision depends
only on whether `retry_on` contains `Exception` or `ExecutionError`, never
on the underlying cause.  Before re-invocation the driver sleeps
`backoff × attempt_number`. -/
theorem C5_retry_on_wrapper :
    (∀ (m : MAdapter) (ctx ctx' : Ctx) (e : Exc),
      runSyncImpl m ctx = (ctx', Except.error e) →
      ∃ c, e = Exc.execError m.name (ErrMsg.adapterFailed m.name) (some c) ∧
        ∀ S, (excMatches e S = true ↔
          ExcType.exception ∈ S ∨ ExcType.executionError ∈ S)) ∧
    (∀ (pol : ExecutionPolicy) (n : PNode) (a r : Nat) (ctx ctx' : Ctx) (e : Exc),
      nodeRun n ctx = (ctx', Except.error e) →
      (excMatches e pol.retry_on = false →
        runWithRetryAux pol n a (r + 1) ctx
          = (ctx', [], Except.error (wrapRetryErr n (a + 1) e))) ∧
      (excMatches e pol.retry_on = true →
        ∃ ctx2 ss res, runWithRetryAux pol n (a + 1) r ctx' = (ctx2, ss, res) ∧
          runWithRetryAux pol n a (r + 1) ctx
            = (ctx2, pol.retry_backoff * (a + 1) :: ss, res))) := by
  constructor
  · intro m ctx ctx' e h
    obtain ⟨c, _hf, he⟩ := runSyncImpl_error_shape m ctx ctx' e h
    exact ⟨c, he, by rw [he]; intro S; exact excMatches_execError_iff _ _ _ S⟩
  · intro pol n a r ctx ctx' e h
    exact runWithRetryAux_step pol n a r ctx ctx' e h

/-- C5 amended, witness: a leaf raising `ValueError` under a
`retry_on=[TypeError]` policy is not retried even with budget left; under
the default `retry_on=[Exception]` policy the same failure is retried with
a backoff sleep of `1 × 1`. -/
theorem C5_retry_on_wrapper_witness :
    (∃ c, Exc.execError "f" (ErrMsg.adapterFailed "f") (some (Exc.valueError "bad"))
        = Exc.execError "f" (ErrMsg.adapterFailed "f") (some c) ∧
      ∀ S, (excMatches (Exc.execError "f" (ErrMsg.adapterFailed "f")
          (some (Exc.valueError "bad"))) S = true ↔
        ExcType.exception ∈ S ∨ ExcType.executionError ∈ S)) ∧
    runWithRetryAux ⟨[ExcType.typeError], 1, ErrorMode.failFast⟩
        (PNode.leaf (plainLeaf (raiseFunc "bad") "f" 0)) 0 1 []
      = ([], [], Except.error
          (Exc.execError "f" (ErrMsg.adapterFailed "f") (some (Exc.valueError "bad")))) ∧
    (∃ ctx2 ss res,
      runWithRetryAux defaultPolicy (PNode.leaf (plainLeaf (raiseFunc "bad") "f" 0))
          1 0 [] = (ctx2, ss, res) ∧
      runWithRetryAux defaultPolicy (PNode.leaf (plainLeaf (raiseFunc "bad") "f" 0))
          0 1 [] = (ctx2, (1 : ℚ) * (0 + 1) :: ss, res)) :=
  ⟨C5_retry_on_wrapper.1 (plainLeaf (raiseFunc "bad") "f" 0) [] []
      (Exc.execError "f" (ErrMsg.adapterFailed "f") (some (Exc.valueError "bad"))) rfl,
   (C5_retry_on_wrapper.2 ⟨[ExcType.typeError], 1, ErrorMode.failFast⟩
      (PNode.leaf (plainLeaf (raiseFunc "bad") "f" 0)) 0 0 [] []
      (Exc.execError "f" (ErrMsg.adapterFailed "f") (some (Exc.valueError "bad")))
      rfl).1 rfl,
   (C5_retry_on_wrapper.2 defaultPolicy
      (PNode.leaf (plainLeaf (raiseFunc "bad") "f" 0)) 0 0 [] []
      (Exc.execError "f" (ErrMsg.adapterFailed "f") (some (Exc.valueError "bad")))
      rfl).2 rfl⟩

/-! ## C1 — at which level retry applies -/

mutual

/-- Rewrite the `retries` field of every node in a tree. -/
def mapRetriesAll (f : Nat → Nat) : PNode → PNode
  | .leaf m => .leaf { m with retries := f m.retries }
  | .serial nm coe r cs => .serial nm coe (f r) (mapRetriesList f cs)
  | .parallel nm ff r cs => .parallel nm ff (f r) (mapRetriesList f cs)
  | .byKeys nm r base keys ikn =>
      .byKeys nm (f r) { base with retries := f base.retries } keys ikn

/-- Rewrite the `retries` field of every node in a forest. -/
def mapRetriesList (f : Nat → Nat) : List PNode → List PNode
  | [] => []
  | c :: cs => mapRetriesAll f c :: mapRetriesList f cs

end

/-- Rewrite the `retries` fields strictly below the root, leaving the
root's own `retries` untouched. -/
def mapChildRetries (f : Nat → Nat) : PNode → PNode
  | .leaf m => .leaf m
  | .serial nm coe r cs => .serial nm coe r (mapRetriesList f cs)
  | .parallel nm ff r cs => .parallel nm ff r (mapRetriesList f cs)
  | .byKeys nm r base keys ikn =>
      .byKeys nm r { base with retries := f base.retries } keys ikn

theorem name_mapRetriesAll (f : Nat → Nat) (n : PNode) :
    (mapRetriesAll f n).name = n.name := by
  cases n <;> rfl

mutual

theorem nodeRun_mapRetriesAll (f : Nat → Nat) (n : PNode) (ctx : Ctx) :
    nodeRun (mapRetriesAll f n) ctx = nodeRun n ctx := by
  cases n with
  | leaf m => rfl
  | serial nm coe r cs => exact serialGo_mapRetries f nm coe cs 0 [] ctx
  | parallel nm ff r cs =>
      cases cs with
      | nil => rfl
      | cons c cs' =>
          have hff := parallelGoFF_mapRetries f nm (c :: cs') ctx
          have hcol := parallelGoCollect_mapRetries f nm (c :: cs') ctx
          simp only [mapRetriesList] at hff hcol
          simp only [mapRetriesAll, mapRetriesList, nodeRun, hff, hcol]
  | byKeys nm r base keys ikn => rfl

theorem serialGo_mapRetries (f : Nat → Nat) (nm : String) (coe : Bool) (cs : List PNode)
    (i : Nat) (errs : List Exc) (ctx : Ctx) :
    serialGo nm coe (mapRetriesList f cs) i errs ctx = serialGo nm coe cs i errs ctx := by
  cases cs with
  | nil => rfl
  | cons c cs' =>
      simp only [mapRetriesList, serialGo, nodeRun_mapRetriesAll f c ctx,
        name_mapRetriesAll f c]
      rcases nodeRun c ctx with ⟨ctx', res⟩
      cases res with
      | ok u => exact serialGo_mapRetries f nm coe cs' (i + 1) errs ctx'
      | error e =>
          by_cases hcoe : coe = true
          · simp only [if_pos hcoe]
            exact serialGo_mapRetries f nm coe cs' (i + 1)
              (errs ++ [Exc.execError c.name (ErrMsg.serialChildFailed nm i c.name) (some e)])
              ctx'
          · simp [hcoe]

theorem parallelGoFF_mapRetries (f : Nat → Nat) (pname : String) (cs : List PNode)
    (ctx : Ctx) :
    parallelGoFF pname (mapRetriesList f cs) ctx = parallelGoFF pname cs ctx := by
  cases cs with
  | nil => rfl
  | cons c cs' =>
      simp only [mapRetriesList, parallelGoFF, nodeRun_mapRetriesAll f c ctx,
        name_mapRetriesAll f c]
      rcases nodeRun c ctx with ⟨ctx', res⟩
      cases res with
      | ok u => exact parallelGoFF_mapRetries f pname cs' ctx'
      | error e => rfl

theorem parallelGoCollect_mapRetries (f : Nat → Nat) (pname : String) (cs : List PNode)
    (ctx : Ctx) :
    parallelGoCollect pname (mapRetriesList f cs) ctx = parallelGoCollect pname cs ctx := by
  cases cs with
  | nil => rfl
  | cons c cs' =>
      simp only [mapRetriesList, parallelGoCollect, nodeRun_mapRetriesAll f c ctx,
        name_mapRetriesAll f c]
      rcases nodeRun c ctx with ⟨ctx', res⟩
      cases res with
      | ok u => exact parallelGoCollect_mapRetries f pname cs' ctx'
      | error e => simp [parallelGoCollect_mapRetries f pname cs' ctx']

end

theorem nodeRun_mapChildRetries (f : Nat → Nat) (n : PNode) (ctx : Ctx) :
    nodeRun (mapChildRetries f n) ctx = nodeRun n ctx := by
  have h : nodeRun (mapChildRetries f n) ctx = nodeRun (mapRetriesAll f n) ctx := by
    cases n <;> rfl
  rw [h]
  exact nodeRun_mapRetriesAll f n ctx

theorem name_mapChildRetries (f : Nat → Nat) (n : PNode) :
    (mapChildRetries f n).name = n.name := by
  cases n <;> rfl

theorem retries_mapChildRetries (f : Nat → Nat) (n : PNode) :
    (mapChildRetries f n).retries = n.retries := by
  cases n <;> rfl

theorem wrapRetryErr_congr (n n' : PNode) (hname : n'.name = n.name) (k : Nat) (e : Exc) :
    wrapRetryErr n' k e = wrapRetryErr n k e := by
  cases e <;> simp [wrapRetryErr, hname]

theorem runWithRetryAux_congr (pol : ExecutionPolicy) (n n' : PNode)
    (hrun : ∀ ctx, nodeRun n' ctx = nodeRun n ctx) (hname : n'.name = n.name) :
    ∀ (remaining attempt : Nat) (ctx : Ctx),
      runWithRetryAux pol n' attempt remaining ctx
        = runWithRetryAux pol n attempt remaining ctx := by
  intro remaining
  induction remaining with
  | zero =>
      intro attempt ctx
      simp only [runWithRetryAux, hrun ctx]
      rcases nodeRun n ctx with ⟨ctx', res⟩
      cases res with
      | ok u => rfl
      | error e => simp [wrapRetryErr_congr n n' hname]
  | succ r ih =>
      intro attempt ctx
      simp only [runWithRetryAux, hrun ctx]
      rcases nodeRun n ctx with ⟨ctx', res⟩
      cases res with
      | ok u => rfl
      | error e =>
          by_cases hm : excMatches e pol.retry_on = true <;>
            simp [hm, ih (attempt + 1) ctx', wrapRetryErr_congr n n' hname]

/-- C1 counterexample input: a `Serial` root with `retries=0` whose only
child is a leaf with `retries=1` wrapping `countUpFailOnceFunc` — a
function that fails on its first invocation and succeeds afterwards. -/
def retryProbeTree : PNode :=
  PNode.serial "root" false 0 [PNode.leaf (plainLeaf countUpFailOnceFunc "child" 1)]

/-- C1 counterexample: the failing child has `retries=1` and a retryable
cause under the default policy, and a second invocation would succeed; but
the run fails with the counter at 1 — the child was invoked exactly once.
Retry is *not* applied at the failing step: `Serial.run` calls
`child.run` directly, and only the root handed to the driver goes through
`_run_with_retry` (with the root's `retries=0`). -/
theorem C1_counterexample :
    (executorRun defaultPolicy retryProbeTree [("n", Val.int 0)]).success = false ∧
    dictGet (executorRun defaultPolicy retryProbeTree [("n", Val.int 0)]).context "n"
      = some (Val.int 1) ∧
    (PNode.leaf (plainLeaf countUpFailOnceFunc "child" 1)).retries = 1 ∧
    (nodeRun (PNode.leaf (plainLeaf countUpFailOnceFunc "child" 1)) [("n", Val.int 1)]).2
      = Except.ok () :=
  ⟨rfl, rfl, rfl, rfl⟩

/-- C1 amended: retry is applied only at the root step handed to the
driver.  (1) The outcome of `Executor.run` is invariant under arbitrary
rewriting of every `retries` value strictly below the root; (2) when the
root invocation fails retryably with budget left, it is the whole root that
is re-invoked from scratch (after the backoff sleep), on the context the
failed attempt left behind. -/
theorem C1_retry_root_only :
    (∀ (pol : ExecutionPolicy) (f : Nat → Nat) (n : PNode) (ctx : Ctx),
      executorRun pol (mapChildRetries f n) ctx = executorRun pol n ctx) ∧
    (∀ (pol : ExecutionPolicy) (n : PNode) (a r : Nat) (ctx ctx' : Ctx) (e : Exc),
      nodeRun n ctx = (ctx', Except.error e) →
      excMatches e pol.retry_on = true →
      ∃ ctx2 ss res, runWithRetryAux pol n (a + 1) r ctx' = (ctx2, ss, res) ∧
        runWithRetryAux pol n a (r + 1) ctx
          = (ctx2, pol.retry_backoff * (a + 1) :: ss, res)) := by
  constructor
  · intro pol f n ctx
    have hrr : runWithRetry pol (mapChildRetries f n) ctx = runWithRetry pol n ctx := by
      unfold runWithRetry
      rw [retries_mapChildRetries]
      exact runWithRetryAux_congr pol n (mapChildRetries f n)
        (nodeRun_mapChildRetries f n) (name_mapChildRetries f n) n.retries 0 ctx
    simp [executorRun, hrr]
  · intro pol n a r ctx ctx' e h hm
    exact (runWithRetryAux_step pol n a r ctx ctx' e h).2 hm

/-- C1 amended, witness: rewriting the probe tree's child retries from 1 to
17 does not change the driver's result, and the failing root (a serial
whose child failed) is re-invoked from scratch under the default policy. -/
theorem C1_retry_root_only_witness :
    executorRun defaultPolicy (mapChildRetries (fun _ => 17) retryProbeTree)
        [("n", Val.int 0)]
      = executorRun defaultPolicy retryProbeTree [("n", Val.int 0)] ∧
    (∃ ctx2 ss res,
      runWithRetryAux defaultPolicy retryProbeTree 1 0 [("n", Val.int 1)]
        = (ctx2, ss, res) ∧
      runWithRetryAux defaultPolicy retryProbeTree 0 1 [("n", Val.int 0)]
        = (ctx2, (1 : ℚ) * (0 + 1) :: ss, res)) :=
  ⟨C1_retry_root_only.1 defaultPolicy (fun _ => 17) retryProbeTree [("n", Val.int 0)],
   C1_retry_root_only.2 defaultPolicy retryProbeTree 0 0
     [("n", Val.int 0)] [("n", Val.int 1)]
     (Exc.execError "child" (ErrMsg.serialChildFailed "root" 0 "child")
       (some (Exc.execError "child" (ErrMsg.adapterFailed "child")
         (some (Exc.valueError "boom")))))
     rfl rfl⟩

/-! ## C6 — ByArgs expansion -/

theorem sum_map_const {α : Type} (l : List α) (N : Nat) :
    (l.map (fun _ => N)).sum = l.length * N := by
  induction l with
  | nil => simp
  | cons x xs ih => simp [ih, Nat.succ_mul, Nat.add_comm]

theorem pyProduct_length (ls : List (List Val)) :
    (pyProduct ls).length = (ls.map List.length).prod := by
  induction ls with
  | nil => rfl
  | cons l ls ih =>
      rw [show pyProduct (l :: ls)
          = (l.map (fun x => (pyProduct ls).map (fun rest => x :: rest))).flatten from rfl]
      rw [List.length_flatten, List.map_map]
      rw [show (List.length ∘ fun x => (pyProduct ls).map (fun rest => x :: rest))
          = fun _ : Val => (pyProduct ls).length by funext x; simp]
      rw [List.map_cons, List.prod_cons, ← ih, sum_map_const]

theorem length_of_mem_pyProduct (ls : List (List Val)) (c : List Val)
    (h : c ∈ pyProduct ls) : c.length = ls.length := by
  induction ls generalizing c with
  | nil =>
      simp [pyProduct] at h
      simp [h]
  | cons l ls ih =>
      simp only [pyProduct, List.mem_flatten, List.mem_map] at h
      obtain ⟨L, ⟨x, _hx, hL⟩, hc⟩ := h
      rw [← hL] at hc
      rw [List.mem_map] at hc
      obtain ⟨rest, hrest, hcons⟩ := hc
      rw [← hcons]
      simp [ih rest hrest]

theorem flatten_map_singleton (l : List Val) :
    (l.map (fun x => ([[x]] : List (List Val)))).flatten = l.map (fun x => [x]) := by
  induction l with
  | nil => rfl
  | cons x xs ih => simp [ih]

/-- Nested-loop enumeration with the last list innermost: the product over
`ls ++ [l]` is the product over `ls`, each of its combinations expanded by
cycling through `l` in place. -/
theorem pyProduct_snoc (ls : List (List Val)) (l : List Val) :
    pyProduct (ls ++ [l])
      = ((pyProduct ls).map (fun c => l.map (fun x => c ++ [x]))).flatten := by
  induction ls with
  | nil =>
      simp [pyProduct, flatten_map_singleton]
  | cons a ls ih =>
      have step1 : pyProduct ((a :: ls) ++ [l])
          = (a.map (fun x =>
              (pyProduct (ls ++ [l])).map (fun rest => x :: rest))).flatten := by
        rw [List.cons_append]
        rfl
      have step2 : pyProduct (a :: ls)
          = (a.map (fun x => (pyProduct ls).map (fun rest => x :: rest))).flatten := rfl
      rw [step1, ih, step2]
      simp only [List.map_flatten, List.map_map, List.flatten_flatten]
      refine congrArg List.flatten (List.map_eq_map_iff.mpr ?_)
      intro x _hx
      simp only [Function.comp]
      rw [List.map_map]
      refine congrArg List.flatten (List.map_eq_map_iff.mpr ?_)
      intro c _hc
      simp [List.map_map, Function.comp]

/-- C6 counterexample: with the reserved parameter name `"retries"`,
`ByArgs` over `{"retries": [5]}` yields one clone whose *call arguments*
are empty — the combination value was routed by `ModuleAdapter.__init__`
into the clone's node-level `retries` — although the merge of the
template's arguments with the combination is `{"retries": 5}`. -/
theorem C6_counterexample :
    (byArgsIter ⟨⟨noopFunc, some "out", "tpl", [], 0, false⟩,
        [("retries", [Val.int 5])]⟩).length = 1 ∧
    ((byArgsIter ⟨⟨noopFunc, some "out", "tpl", [], 0, false⟩,
        [("retries", [Val.int 5])]⟩).getD 0
          ⟨noopFunc, some "out", "tpl", [], 0, false⟩).func_kwargs = [] ∧
    dictUpdate ([] : List (String × Val)) [("retries", Val.int 5)]
      = [("retries", Val.int 5)] ∧
    ([] : List (String × Val)) ≠ [("retries", Val.int 5)] ∧
    ((byArgsIter ⟨⟨noopFunc, some "out", "tpl", [], 0, false⟩,
        [("retries", [Val.int 5])]⟩).getD 0
          ⟨noopFunc, some "out", "tpl", [], 0, false⟩).retries = 5 :=
  ⟨rfl, rfl, rfl, by simp, rfl⟩

/-- C6 amended: provided no parameter name (and no template argument name)
is one of the reserved node keywords `timeout`/`retries`/`metadata`,
`ByArgs` expansion yields exactly one clone per element of the cartesian
product of the value lists (last parameter fastest): every combination has
one value per parameter; every clone keeps the template's output key and
has its accumulate flag set; a clone's call arguments are the template's
merged with its combination (combination wins); and the enumeration order
groups by the leading parameters with the last parameter cycling
innermost. -/
theorem C6_byArgs_expansion (b : ByArgs)
    (hnd : (b.args.map Prod.fst).Nodup)
    (hres : ∀ p ∈ b.args.map Prod.fst, p ∉ reservedNodeKeys)
    (htpl : ∀ p ∈ b.base_node.func_kwargs.map Prod.fst, p ∉ reservedNodeKeys) :
    (byArgsIter b).length = (b.args.map (fun pv => pv.2.length)).prod ∧
    (∀ combo ∈ pyProduct (b.args.map Prod.snd),
      combo.length = b.args.length ∧
      (byArgsClone b combo).out_name = b.base_node.out_name ∧
      (byArgsClone b combo).accumulate_result = true ∧
      (∀ q w, dictGet (List.zip (b.args.map Prod.fst) combo) q = some w →
        dictGet (byArgsClone b combo).func_kwargs q = some w) ∧
      (∀ q, dictGet (List.zip (b.args.map Prod.fst) combo) q = Option.none →
        dictGet (byArgsClone b combo).func_kwargs q
          = dictGet b.base_node.func_kwargs q)) ∧
    (∀ ps p l, b.args = ps ++ [(p, l)] →
      byArgsIter b
        = ((pyProduct (ps.map Prod.snd)).map
            (fun c => l.map (fun x => byArgsClone b (c ++ [x])))).flatten) := by
  refine ⟨?_, ?_, ?_⟩
  · rw [byArgsIter, List.length_map, pyProduct_length, List.map_map]
    rfl
  · intro combo hc
    have hlen : combo.length = b.args.length := by
      rw [length_of_mem_pyProduct _ combo hc, List.length_map]
    have hzipfst : (List.zip (b.args.map Prod.fst) combo).map Prod.fst
        = b.args.map Prod.fst :=
      List.map_fst_zip _ _ (by simp [hlen])
    have hall : ∀ kv ∈ dictUpdate b.base_node.func_kwargs
        (List.zip (b.args.map Prod.fst) combo),
        ¬ reservedNodeKeys.contains kv.1 := by
      intro kv hkv
      rcases fst_mem_dictUpdate _ _ kv hkv with h | h
      · simpa using htpl kv.1 h
      · rw [hzipfst] at h
        simpa using hres kv.1 h
    have hkw : (byArgsClone b combo).func_kwargs
        = dictUpdate b.base_node.func_kwargs (List.zip (b.args.map Prod.fst) combo) := by
      simp only [byArgsClone, mkModuleAdapter]
      exact List.filter_eq_self.mpr (fun kv hkv => by
        simpa using hall kv hkv)
    refine ⟨hlen, rfl, rfl, ?_, ?_⟩
    · intro q w hq
      rw [hkw]
      exact dictGet_dictUpdate_of_some _ _ q w (by rw [hzipfst]; exact hnd) hq
    · intro q hq
      rw [hkw]
      exact dictGet_dictUpdate_of_none _ _ q hq
  · intro ps p l hargs
    rw [byArgsIter, hargs]
    rw [show (ps ++ [(p, l)]).map Prod.snd = ps.map Prod.snd ++ [l] by simp]
    rw [pyProduct_snoc, List.map_flatten, List.map_map]
    refine congrArg List.flatten (List.map_eq_map_iff.mpr ?_)
    intro c _hc
    simp [List.map_map, Function.comp]

/-- C6 amended, witness: a two-parameter fan-out with list lengths 2 and 2
produces 4 clones. -/
theorem C6_byArgs_expansion_witness :
    (byArgsIter ⟨⟨noopFunc, some "out", "tpl", [("base", Val.int 9)], 0, false⟩,
        [("p", [Val.int 1, Val.int 2]), ("q", [Val.str "x", Val.str "y"])]⟩).length
      = 4 :=
  (C6_byArgs_expansion
    ⟨⟨noopFunc, some "out", "tpl", [("base", Val.int 9)], 0, false⟩,
      [("p", [Val.int 1, Val.int 2]), ("q", [Val.str "x", Val.str "y"])]⟩
    (by simp) (by simp [reservedNodeKeys]) (by simp [reservedNodeKeys])).1

end Parasel
